import Mathlib

/-!
Shallow embedding of the response-processing pipeline of `src/app.py`
(session management, RootAgent response extraction, markdown-table-to-HTML
conversion, best-effort graph-point extraction, and the per-turn chat
update), together with proofs settling the frozen claims about it.

Python strings are modelled as Lean `String`/`List Char`; `None`-able
values as `Option`; raised exceptions as `Except`.  The regular
expressions of the source are modelled by dedicated recognizer functions,
each written to implement the exact leftmost/greedy/lazy semantics of the
concrete pattern it stands for (justified in the comment next to each).
Whitespace and line-boundary classes carry Python's full character
sets (`str.isspace`, regex `\s` on `str` patterns, and the
`str.splitlines` boundaries).
-/

/-! ## Python character and string helpers -/

/-- Python's whitespace class for `str` (`str.strip()` with no argument,
`str.isspace`, and regex `\s` on `str` patterns): the ASCII whitespace
characters, the information separators `\x1c`–`\x1f`, and the Unicode
space characters. -/
def isPyWs (c : Char) : Bool :=
  c = ' ' || c = '\t' || c = '\n' || c = '\r' || c = '\x0b' || c = '\x0c' ||
  (0x1c ≤ c.toNat && c.toNat ≤ 0x1f) || c = '\x85' || c = '\xa0' ||
  c = '\u1680' || (0x2000 ≤ c.toNat && c.toNat ≤ 0x200a) ||
  c = '\u2028' || c = '\u2029' || c = '\u202f' || c = '\u205f' || c = '\u3000'

/-- Strip characters satisfying `p` from both ends of a character list
(Python `str.strip` with a character set). -/
def stripCharsL (p : Char → Bool) (cs : List Char) : List Char :=
  ((cs.dropWhile p).reverse.dropWhile p).reverse

/-- Python `str.strip()` (no argument): strip whitespace from both ends. -/
def stripWsL (cs : List Char) : List Char :=
  stripCharsL isPyWs cs

/-- Python `str.strip()` on `String`. -/
def pyStrip (s : String) : String :=
  ⟨stripWsL s.data⟩

/-- Split a character list at every occurrence of the delimiter `d`
(used by the pipe split and the float-literal dot split). -/
def splitOnCharL (d : Char) : List Char → List (List Char)
  | [] => [[]]
  | c :: cs =>
    match splitOnCharL d cs with
    | [] => [[]]
    | p :: ps => if c = d then [] :: p :: ps else (c :: p) :: ps

/-- The line-boundary characters of Python `str.splitlines()`: `\n`,
`\r` (with `\r\n` counting as one boundary), `\v`, `\f`, the file/group/
record separators `\x1c`–`\x1e`, `\x85`, and the Unicode line/paragraph
separators U+2028 and U+2029. -/
def isLineBreak (c : Char) : Bool :=
  c = '\n' || c = '\r' || c = '\x0b' || c = '\x0c' || c = '\x1c' ||
  c = '\x1d' || c = '\x1e' || c = '\x85' || c = '\u2028' || c = '\u2029'

/-- Replace every `\r\n` pair by a single `\n`, so that `\r\n` counts as
one line boundary, as in Python. -/
def crlfNormalize : List Char → List Char
  | [] => []
  | [c] => [c]
  | c1 :: c2 :: cs =>
    if c1 = '\r' && c2 = '\n' then '\n' :: crlfNormalize cs
    else c1 :: crlfNormalize (c2 :: cs)

/-- Prepend a character to the first piece of a split result. -/
def consHead (c : Char) : List (List Char) → List (List Char)
  | [] => [[c]]
  | p :: ps => (c :: p) :: ps

/-- Split at every line-boundary character, producing one more piece than
there are boundaries. -/
def splitBreaks : List Char → List (List Char)
  | [] => [[]]
  | c :: cs =>
    if isLineBreak c then [] :: splitBreaks cs
    else consHead c (splitBreaks cs)

/-- Python `str.splitlines()`: split at every line boundary (`\r\n`
counting as one) and drop the final empty piece produced by a trailing
boundary (Python yields no empty final line). -/
def pySplitlinesL (cs : List Char) : List (List Char) :=
  if cs.isEmpty then []
  else
    let r := splitBreaks (crlfNormalize cs)
    if r.getLast? = some [] then r.dropLast else r

/-- Join lines with `'\n'` (the inverse construction used to build the
multi-line inputs of the table claims). -/
def joinNlL : List (List Char) → List Char
  | [] => []
  | [l] => l
  | l :: ls => l ++ '\n' :: joinNlL ls

/-- Join a list of `String` lines with newlines. -/
def joinNl (ls : List String) : String :=
  ⟨joinNlL (ls.map String.data)⟩

/-- Characters stripped by `line.strip("| ")` in the table converter. -/
def isPipeSpace (c : Char) : Bool :=
  c = '|' || c = ' '

/-- Drop trailing whitespace of a character list. -/
def dropTrailWs (cs : List Char) : List Char :=
  (cs.reverse.dropWhile isPyWs).reverse

/-- Model of `re.split(r"\s*\|\s*", s)`: every `'|'` is a delimiter, and
each delimiter consumes the whitespace adjacent to it.  Equivalently:
split at every `'|'`; a piece that is followed by a pipe loses its
trailing whitespace, a piece preceded by a pipe loses its leading
whitespace (whitespace not adjacent to any pipe is kept). -/
def pipeSplitL (cs : List Char) : List (List Char) :=
  match splitOnCharL '|' cs with
  | [] => []
  | [p] => [p]
  | p :: ps => dropTrailWs p :: pipeSplitMid ps
where
  /-- Pieces after the first delimiter: each loses its leading whitespace,
  and all but the last lose their trailing whitespace. -/
  pipeSplitMid : List (List Char) → List (List Char)
  | [] => []
  | [q] => [q.dropWhile isPyWs]
  | q :: qs => dropTrailWs (q.dropWhile isPyWs) :: pipeSplitMid qs

/-! ## Table separator line recognizer

Model of `re.match(r"^\s*\|?\s*[-:]+\s*(\|[-:]+\s*)+\|?\s*$", line)`.
The pattern is deterministic on any input: every greedy repetition here
is over a character class disjoint from what must follow it, except for
the group repetition, where consuming a further `\|[-:]+\s*` group can
never block the `\|?\s*$` tail (if the tail could match at a group start,
the group itself could not, and vice versa). -/

/-- Characters of the `[-:]` class. -/
def isSepChar (c : Char) : Bool :=
  c = '-' || c = ':'

/-- Drop regex `\s*`. -/
def dropWsL (cs : List Char) : List Char :=
  cs.dropWhile isPyWs

/-- After the leading `\s*\|?\s*[-:]+\s*` has been consumed: repeatedly
consume `\|[-:]+\s*` groups, then accept an optional `'|'`, whitespace,
and end of line, requiring at least one group. -/
def sepTailL (fuel : Nat) (cs : List Char) (n : Nat) : Bool :=
  match fuel with
  | 0 => false
  | fuel + 1 =>
    match cs with
    | [] => decide (1 ≤ n)
    | '|' :: rest =>
      let ds := rest.takeWhile isSepChar
      if ds.isEmpty then decide (1 ≤ n) && (dropWsL rest).isEmpty
      else sepTailL fuel (dropWsL (rest.dropWhile isSepChar)) (n + 1)
    | _ => false

/-- Whole separator-line match. -/
def sepMatchL (cs : List Char) : Bool :=
  let cs1 := dropWsL cs
  let cs2 := match cs1 with
    | '|' :: r => dropWsL r
    | _ => cs1
  let ds := cs2.takeWhile isSepChar
  if ds.isEmpty then false
  else sepTailL (cs.length + 1) (dropWsL (cs2.dropWhile isSepChar)) 0

/-! ## `markdown_table_to_html` -/

/-- Cells of one table line: `re.split(r"\s*\|\s*", line.strip("| "))`. -/
def cellsOfLineL (cs : List Char) : List String :=
  (pipeSplitL (stripCharsL isPipeSpace cs)).map fun p => ⟨p⟩

/-- The HTML string built by the loop of `markdown_table_to_html`:
one `<th>` row from the header cells, then one `<td>` row per body line,
cells emitted in their original left-to-right order. -/
def tableHtmlOf (hdr : List String) (body : List (List String)) : String :=
  "<table border=\"1\" style=\"border-collapse:collapse; width:100%;\">\n"
    ++ "<tr>" ++ String.join (hdr.map fun c => "<th>" ++ c ++ "</th>") ++ "</tr>\n"
    ++ String.join (body.map fun r =>
        "<tr>" ++ String.join (r.map fun c => "<td>" ++ c ++ "</td>") ++ "</tr>\n")
    ++ "</table>"

/-- The function `markdown_table_to_html` from `src/app.py`: strip the text, split into
lines; fewer than 2 lines, or a second line not matching the separator
pattern, returns the input unchanged; otherwise emit the table from
`rows[0]` (header) and `rows[2:]` (body), discarding the separator. -/
def markdown_table_to_html (md : String) : String :=
  match pySplitlinesL (stripWsL md.data) with
  | l0 :: l1 :: rest =>
    if sepMatchL l1 then tableHtmlOf (cellsOfLineL l0) (rest.map cellsOfLineL)
    else md
  | _ => md

/-! ## Python/JSON values and `json.loads`

`PyVal` models the Python values produced by `json.loads` in the graph
extraction step.  The parser below implements the grammar accepted by
`json.loads` with default arguments: the strict JSON value grammar
(leading-zero rejection, whole-input consumption, last-key-wins dicts,
raw control characters rejected inside strings) extended by the
`Infinity`/`-Infinity`/`NaN` literals, which Python accepts by default
and which are carried as the distinguished values `inf`/`ninf`/`nan`,
and by `\uXXXX` string escapes with surrogate-pair combination.

Finite numbers are carried as exact rationals standing for their decimal
literals, where Python produces nearest binary floats; this never
changes where parsing succeeds, and the truthiness of a captured
bracketed array is its length, so the abstraction is inert for every
property proved here.  The character content of lone-surrogate `\u`
escapes is likewise abstracted by a placeholder (see `parseJsonStr`),
with success and emptiness preserved. -/

inductive PyVal where
  | null : PyVal
  | bool : Bool → PyVal
  | num : ℚ → PyVal
  | inf : PyVal
  | ninf : PyVal
  | nan : PyVal
  | str : String → PyVal
  | arr : List PyVal → PyVal
  | obj : List (String × PyVal) → PyVal

/-- Python truthiness of a `PyVal` (`None`, `False`, `0`, `""`, `[]`, `{}`
are falsy). -/
def pyTruthy : PyVal → Bool
  | .null => false
  | .bool b => b
  | .num q => decide (q ≠ 0)
  | .inf => true
  | .ninf => true
  | .nan => true
  | .str s => decide (s ≠ "")
  | .arr l => !l.isEmpty
  | .obj l => !l.isEmpty

/-- JSON whitespace (`json.loads` skips space, tab, newline, return). -/
def isJsonWs (c : Char) : Bool :=
  c = ' ' || c = '\t' || c = '\n' || c = '\r'

/-- Drop JSON whitespace. -/
def dropJsonWs (cs : List Char) : List Char :=
  cs.dropWhile isJsonWs

/-- The single-character string escapes of JSON, as source/decoded pairs. -/
def jsonEscapeTable : List (Char × Char) :=
  [('"', '"'), ('\\', '\\'), ('/', '/'), ('n', '\n'), ('t', '\t'),
   ('r', '\r'), ('b', '\x08'), ('f', '\x0c')]

/-- Decode a single-character string escape; anything not in the table
(other than `u`, handled separately) is rejected by `json.loads`. -/
def jsonEscape (c : Char) : Option Char :=
  (jsonEscapeTable.find? fun p => p.1 = c).map Prod.snd

/-- Numeric value of a hexadecimal digit (`0`–`9`, `a`–`f`, `A`–`F`),
computed from the character's code: digits sit at `0x30`–`0x39`,
lowercase at `0x61`–`0x66` (value = code − `0x57`), uppercase at
`0x41`–`0x46` (value = code − `0x37`). -/
def hexDigitVal (c : Char) : Option Nat :=
  let n := c.toNat
  if 0x30 ≤ n && n ≤ 0x39 then some (n - 0x30)
  else if 0x61 ≤ n && n ≤ 0x66 then some (n - 0x57)
  else if 0x41 ≤ n && n ≤ 0x46 then some (n - 0x37)
  else none

/-- Value of the four hex digits of a `\uXXXX` escape. -/
def hex4Val (h1 h2 h3 h4 : Char) : Option Nat :=
  match hexDigitVal h1, hexDigitVal h2, hexDigitVal h3, hexDigitVal h4 with
  | some a, some b, some c, some d => some (((a * 16 + b) * 16 + c) * 16 + d)
  | _, _, _, _ => none

/-- First pass over a JSON string body (after the opening quote): decode
it to a list of code units, stopping at the closing quote.  Faithful to
`json.loads` in strict (default) mode: raw control characters below
`0x20` are rejected, unknown escapes are rejected, and a `\uXXXX` escape
contributes its (possibly surrogate) code unit. -/
def parseJsonStrUnits : List Char → Option (List Nat × List Char)
  | [] => none
  | '"' :: r => some ([], r)
  | '\\' :: 'u' :: h1 :: h2 :: h3 :: h4 :: r =>
    match hex4Val h1 h2 h3 h4, parseJsonStrUnits r with
    | some n, some (us, r') => some (n :: us, r')
    | _, _ => none
  | '\\' :: c :: r =>
    match jsonEscape c, parseJsonStrUnits r with
    | some ch, some (us, r') => some (ch.toNat :: us, r')
    | _, _ => none
  | c :: r =>
    if c.toNat < 0x20 then none
    else
      match parseJsonStrUnits r with
      | some (us, r') => some (c.toNat :: us, r')
      | none => none

/-- Second pass: combine a high/low surrogate pair of `\u` escapes into
one character, as `json.loads` does.  Surrogate code units can only
arise from `\u` escapes (no `Char` is a surrogate), so pairing adjacent
units is exact.  Python keeps a lone surrogate as a one-character
string; `Char` cannot carry a surrogate code point, so `Char.ofNat`
supplies a placeholder character there — parse success/failure and
string emptiness agree with `json.loads`, only the character content of
lone-surrogate strings is abstracted. -/
def combineSurrogates : List Nat → List Char
  | [] => []
  | [u] => [Char.ofNat u]
  | u :: v :: us =>
    if (0xd800 ≤ u && u ≤ 0xdbff) && (0xdc00 ≤ v && v ≤ 0xdfff) then
      Char.ofNat (0x10000 + (u - 0xd800) * 0x400 + (v - 0xdc00)) :: combineSurrogates us
    else Char.ofNat u :: combineSurrogates (v :: us)

/-- Parse a JSON string body (after the opening quote); returns the
string and the input remaining after the closing quote. -/
def parseJsonStr (cs : List Char) : Option (String × List Char) :=
  match parseJsonStrUnits cs with
  | some (us, r) => some (⟨combineSurrogates us⟩, r)
  | none => none

/-- Numeric value of a digit list (most significant first). -/
def digitsVal (ds : List Char) : Nat :=
  ds.foldl (fun a c => a * 10 + (c.toNat - '0'.toNat)) 0

/-- Take the maximal run of decimal digits from the front of the input. -/
def takeNatDigits (cs : List Char) : List Char × List Char :=
  (cs.takeWhile Char.isDigit, cs.dropWhile Char.isDigit)

/-- Parse the optional fraction part `.digits` of a JSON number; yields
its digit value, its digit count, and the remaining input.  A dot not
followed by a digit is malformed. -/
def parseJsonFrac (cs : List Char) : Option (Nat × Nat × List Char) :=
  match cs with
  | '.' :: tl =>
    let (fds, tl2) := takeNatDigits tl
    if fds.isEmpty then none else some (digitsVal fds, fds.length, tl2)
  | _ => some (0, 0, cs)

/-- Parse the optional exponent part `[eE][+-]?digits` of a JSON number;
an absent marker contributes exponent `0`. -/
def parseJsonExp (cs : List Char) : Option (ℤ × List Char) :=
  match cs with
  | c :: tl =>
    if c = 'e' || c = 'E' then
      let (sgn, tl2) : ℤ × List Char :=
        match tl with
        | '+' :: u => (1, u)
        | '-' :: u => (-1, u)
        | _ => (1, tl)
      let (eds, tl3) := takeNatDigits tl2
      if eds.isEmpty then none else some (sgn * (digitsVal eds : ℤ), tl3)
    else some (0, cs)
  | [] => some (0, [])

/-- Parse an unsigned strict JSON number `(0 | [1-9][0-9]*) (.[0-9]+)?
([eE][+-]?[0-9]+)?` — note the leading-zero rejection — returning its
exact rational value and the remaining input. -/
def parseJsonNumCore (cs : List Char) : Option (ℚ × List Char) :=
  let (ids, rest1) := takeNatDigits cs
  if ids.isEmpty then none
  else if ids.head? = some '0' && 2 ≤ ids.length then none
  else
    match parseJsonFrac rest1 with
    | none => none
    | some (fnum, flen, rest2) =>
      match parseJsonExp rest2 with
      | none => none
      | some (e, rest3) =>
        -- The plain integer case is split out so that it carries no
        -- rational arithmetic (same value as the general formula).
        if flen = 0 && e = 0 then some ((digitsVal ids : ℚ), rest3)
        else
          some (((digitsVal ids : ℚ) + (fnum : ℚ) / (10 : ℚ) ^ flen) * (10 : ℚ) ^ e,
            rest3)

/-- Parse a strict JSON number with its optional leading minus sign. -/
def parseJsonNum (cs : List Char) : Option (ℚ × List Char) :=
  match cs with
  | '-' :: tl => (parseJsonNumCore tl).map fun p => (-p.1, p.2)
  | _ => parseJsonNumCore cs

/-- Strip a literal word from the front of the input. -/
def stripWord : List Char → List Char → Option (List Char)
  | [], rest => some rest
  | w :: ws, c :: rest => if c = w then stripWord ws rest else none
  | _ :: _, [] => none

/-- The word-like literals accepted by `json.loads` with default
arguments: the JSON keywords, plus Python's `Infinity`/`-Infinity`/`NaN`
extensions. -/
def jsonLiteralTable : List (String × PyVal) :=
  [("null", .null), ("true", .bool true), ("false", .bool false),
   ("Infinity", .inf), ("-Infinity", .ninf), ("NaN", .nan)]

/-- Recognize one of the accepted word literals at the current position. -/
def jsonLiteralScan : List (String × PyVal) → List Char → Option (PyVal × List Char)
  | [], _ => none
  | (w, v) :: tbl, cs =>
    match stripWord w.data cs with
    | some rest => some (v, rest)
    | none => jsonLiteralScan tbl cs

mutual

/-- Parse one JSON value (leading whitespace allowed); `fuel` bounds the
nesting depth and is instantiated with the input length. -/
def parseJsonVal : Nat → List Char → Option (PyVal × List Char)
  | 0, _ => none
  | fuel + 1, cs =>
    match jsonLiteralScan jsonLiteralTable (dropJsonWs cs) with
    | some hit => some hit
    | none =>
    match dropJsonWs cs with
    | '"' :: r =>
      match parseJsonStr r with
      | some (s, r') => some (.str s, r')
      | none => none
    | '[' :: r =>
      match dropJsonWs r with
      | ']' :: r' => some (.arr [], r')
      | r' =>
        match parseJsonElems fuel r' with
        | some (l, r'') => some (.arr l, r'')
        | none => none
    | '{' :: r =>
      match dropJsonWs r with
      | '}' :: r' => some (.obj [], r')
      | r' =>
        match parseJsonMembers fuel r' with
        | some (l, r'') => some (.obj l, r'')
        | none => none
    | cs' => parseJsonNum cs' |>.map fun (q, r) => (.num q, r)

/-- Parse the elements of a nonempty JSON array (positioned at the first
element), up to and including the closing bracket. -/
def parseJsonElems : Nat → List Char → Option (List PyVal × List Char)
  | 0, _ => none
  | fuel + 1, cs =>
    match parseJsonVal fuel cs with
    | some (v, r) =>
      match dropJsonWs r with
      | ',' :: r' =>
        match parseJsonElems fuel r' with
        | some (l, r'') => some (v :: l, r'')
        | none => none
      | ']' :: r' => some ([v], r')
      | _ => none
    | none => none

/-- Parse the members of a nonempty JSON object (positioned at the first
key), up to and including the closing brace. -/
def parseJsonMembers : Nat → List Char → Option (List (String × PyVal) × List Char)
  | 0, _ => none
  | fuel + 1, cs =>
    match dropJsonWs cs with
    | '"' :: r =>
      match parseJsonStr r with
      | some (k, r1) =>
        match dropJsonWs r1 with
        | ':' :: r2 =>
          match parseJsonVal fuel r2 with
          | some (v, r3) =>
            match dropJsonWs r3 with
            | ',' :: r4 =>
              match parseJsonMembers fuel r4 with
              | some (l, r5) => some ((k, v) :: l, r5)
              | none => none
            | '}' :: r4 => some ([(k, v)], r4)
            | _ => none
          | none => none
        | _ => none
      | none => none
    | _ => none

end

/-- Model of `json.loads`: parse one JSON value and require the rest of the input
to be whitespace. -/
def jsonLoads (s : String) : Option PyVal :=
  match parseJsonVal (s.data.length + 1) s.data with
  | some (v, rest) => if (dropJsonWs rest).isEmpty then some v else none
  | none => none

/-- Last-key-wins lookup in a parsed JSON object (Python dict semantics:
a duplicate key overwrites the earlier one). -/
def objLookup (k : String) (l : List (String × PyVal)) : Option PyVal :=
  (l.reverse.find? fun p => p.1 = k).map Prod.snd

/-! ## Fenced-block search

Model of `re.search(r"```(?:json)?\s*(\[[\s\S]*?\])\s*```", text, re.DOTALL)`.
`re.search` takes the leftmost position at which a match exists.  At a
given position the pattern is deterministic: the optional `json` can only
help (skipping it leaves `\s*\[` facing a `'j'`), `\s*` is greedy over a
class disjoint from `'['`, and the lazy `[\s\S]*?\]` together with the
mandatory `\s*```​` tail selects the first `']'` that is followed by
whitespace and a triple backtick. -/

/-- Does `\s*```​` match a prefix of the input? (the tail after the
captured group). -/
def fenceAfterOk (cs : List Char) : Bool :=
  match dropWsL cs with
  | '`' :: '`' :: '`' :: _ => true
  | _ => false

/-- Scan for the first `']'` whose tail satisfies `fenceAfterOk`,
accumulating the capture (in reverse) as we go; `acc` already holds the
opening `'['`. -/
def fenceFindClose (acc : List Char) : List Char → Option (List Char)
  | [] => none
  | c :: cs =>
    if c = ']' then
      if fenceAfterOk cs then some (']' :: acc).reverse
      else fenceFindClose (']' :: acc) cs
    else fenceFindClose (c :: acc) cs

/-- Try the fence pattern at the current position: triple backtick,
optional `json`, whitespace, then the captured bracketed group. -/
def matchFenceAt (cs : List Char) : Option (List Char) :=
  match cs with
  | '`' :: '`' :: '`' :: rest =>
    let rest2 := match rest with
      | 'j' :: 's' :: 'o' :: 'n' :: r => r
      | _ => rest
    match dropWsL rest2 with
    | '[' :: r2 => fenceFindClose ['['] r2
    | _ => none
  | _ => none

/-- Leftmost search for the fence pattern; returns the captured group
(`match.group(1)`), a bracketed character list. -/
def fenceSearchL : List Char → Option (List Char)
  | [] => none
  | c :: cs =>
    match matchFenceAt (c :: cs) with
    | some g => some g
    | none => fenceSearchL cs

/-! ## Loose inline point scan

Model of
`re.findall(r'\{\s*"x"\s*:\s*([\d.]+)\s*,\s*"y"\s*:\s*([\d.]+)\s*\}', text)`.
The pattern is deterministic: each `[\d.]+` is greedy over a class
disjoint from the whitespace/comma/brace that must follow it.  `findall`
scans left to right and continues after each match. -/

/-- The `[\d.]` class. -/
def isDigitDot (c : Char) : Bool :=
  c.isDigit || c = '.'

/-- Match the loose point pattern at the current position; on success
return the two captured numeral groups and the input remaining after the
closing brace. -/
def matchLooseAt (cs : List Char) : Option ((List Char × List Char) × List Char) :=
  match cs with
  | '{' :: r0 =>
    match dropWsL r0 with
    | '"' :: 'x' :: '"' :: r2 =>
      match dropWsL r2 with
      | ':' :: r4 =>
        let r5 := dropWsL r4
        let xs := r5.takeWhile isDigitDot
        if xs.isEmpty then none
        else
          match dropWsL (r5.dropWhile isDigitDot) with
          | ',' :: r7 =>
            match dropWsL r7 with
            | '"' :: 'y' :: '"' :: r9 =>
              match dropWsL r9 with
              | ':' :: r11 =>
                let r12 := dropWsL r11
                let ys := r12.takeWhile isDigitDot
                if ys.isEmpty then none
                else
                  match dropWsL (r12.dropWhile isDigitDot) with
                  | '}' :: rest => some ((xs, ys), rest)
                  | _ => none
              | _ => none
            | _ => none
          | _ => none
      | _ => none
    | _ => none
  | _ => none

/-- The `re.findall` scan for the loose point pattern: try a match at every
position, resuming after the end of each match; `fuel` bounds the number
of scanning steps and is instantiated with the input length. -/
def looseFindAux : Nat → List Char → List (List Char × List Char)
  | 0, _ => []
  | _, [] => []
  | fuel + 1, c :: cs =>
    match matchLooseAt (c :: cs) with
    | some (g, rest) => g :: looseFindAux fuel rest
    | none => looseFindAux fuel cs

/-- All loose `{"x": n, "y": n}` matches of a text, in order of
appearance, as pairs of captured numeral strings. -/
def looseFindallL (cs : List Char) : List (List Char × List Char) :=
  looseFindAux (cs.length + 1) cs

/-- Python `float()` applied to a string matched by `[\d.]+`: accepts at
most one dot and at least one digit (`"1"`, `"1.5"`, `"1."`, `".5"`);
anything else — `"."`, `"1.2.3"` — raises `ValueError`, modelled as
`none`.  The value is the exact rational. -/
def pyFloatDD (cs : List Char) : Option ℚ :=
  if cs.all isDigitDot then
    match splitOnCharL '.' cs with
    | [ds] => if ds.isEmpty then none else some (digitsVal ds : ℚ)
    | [as, bs] =>
      if as.isEmpty && bs.isEmpty then none
      else some ((digitsVal as : ℚ) + (digitsVal bs : ℚ) / (10 : ℚ) ^ bs.length)
    | _ => none
  else none

/-- The list comprehension
`[{"x": float(x), "y": float(y)} for x, y in matches]`: coerce every
captured pair left to right; a failing coercion raises (propagating to
the surrounding `try`), modelled as `Except.error`. -/
def floatsOf : List (List Char × List Char) → Except Unit (List (ℚ × ℚ))
  | [] => .ok []
  | (xs, ys) :: rest =>
    match pyFloatDD xs, pyFloatDD ys with
    | some x, some y =>
      match floatsOf rest with
      | .ok ps => .ok ((x, y) :: ps)
      | .error e => .error e
    | _, _ => .error ()

/-- The fallback point list of a text (loose scan plus float coercion). -/
def loosePointsE (t : String) : Except Unit (List (ℚ × ℚ)) :=
  floatsOf (looseFindallL t.data)

/-- The `PyVal` built by the fallback list comprehension from coerced
points. -/
def pointsVal (ps : List (ℚ × ℚ)) : PyVal :=
  .arr (ps.map fun p => .obj [("x", .num p.1), ("y", .num p.2)])

/-- The graph-detection block of `query_agent` (lines 183–204): compute
`points_list` from the fenced block if it parses (a parse failure is
swallowed), fall back to the loose scan when `points_list` is falsy, and
produce a figure value exactly when the final `points_list` is truthy.
`none` means `fig is None` (no chart); an exception inside the block
(only the `float` coercion can raise) is caught by the outer handler and
also yields `fig = None`. -/
def graphResult (text : String) : Option PyVal :=
  let pl0 : Option PyVal := (fenceSearchL text.data).bind fun g => jsonLoads ⟨g⟩
  let needFallback := match pl0 with
    | none => true
    | some v => !pyTruthy v
  if needFallback then
    match loosePointsE text with
    | .error _ => none
    | .ok ps => if ps.isEmpty then none else some (pointsVal ps)
  else pl0

/-- Read a parsed JSON value as a point `{x, y}` (numeric fields). -/
def pointOfVal : PyVal → Option (ℚ × ℚ)
  | .obj l =>
    match objLookup "x" l, objLookup "y" l with
    | some (.num x), some (.num y) => some (x, y)
    | _, _ => none
  | _ => none

/-- Read a parsed JSON value as an array of points. -/
def pointsOfVal : PyVal → Option (List (ℚ × ℚ))
  | .arr l => l.mapM pointOfVal
  | _ => none

/-- The fenced point array of a text, when the fenced capture parses as
JSON and that value is an array of `{x, y}` objects. -/
def fencePointArray (t : String) : Option (List (ℚ × ℚ)) :=
  ((fenceSearchL t.data).bind fun g => jsonLoads ⟨g⟩).bind pointsOfVal

/-! ## Whole-text table substitution

Model of
`re.sub(r"(\|.+\|\n\|[-:| ]+\|(?:\n\|.*\|)+)", lambda m: markdown_table_to_html(m.group(0)), final_text, flags=re.MULTILINE)`
(the flag is inert: the pattern has no anchors).  At a given start the
pattern is deterministic: the greedy `.+` backtracks to the last `'|'`
of the current line, which must be followed by the literal newline; the
greedy `[-:| ]+` must end at the `'|'` immediately preceding the next
newline; each `\n\|.*\|` repetition consumes its line up to the line's
last `'|'`, and the repetition stops when that is not at a line end. -/

/-- Split a line at its last `'|'`: the part up to and including it, and
the part after it. -/
def splitAtLastPipe (l : List Char) : List Char × List Char :=
  let post := (l.reverse.takeWhile fun c => c ≠ '|').reverse
  (l.take (l.length - post.length), post)

/-- Consume `(\n\|.*\|)+` repetitions greedily; returns the consumed
characters and the rest.  An empty consumed list means no repetition
matched. -/
def hLoop : Nat → List Char → List Char × List Char
  | 0, cs => ([], cs)
  | fuel + 1, cs =>
    match cs with
    | '\n' :: r =>
      let l := r.takeWhile fun c => c ≠ '\n'
      let r' := r.dropWhile fun c => c ≠ '\n'
      let (pre, post) := splitAtLastPipe l
      if l.head? = some '|' && 2 ≤ pre.length then
        if post.isEmpty then
          let (c2, rest2) := hLoop fuel r'
          ('\n' :: pre ++ c2, rest2)
        else ('\n' :: pre, post ++ r')
      else ([], cs)
    | _ => ([], cs)

/-- Try the whole table region pattern at the current position; on success
return the matched region and the rest of the input. -/
def tableMatchAt (cs : List Char) : Option (List Char × List Char) :=
  let l1 := cs.takeWhile fun c => c ≠ '\n'
  let r1 := cs.dropWhile fun c => c ≠ '\n'
  if l1.head? = some '|' && l1.getLast? = some '|' && 3 ≤ l1.length then
    match r1 with
    | '\n' :: r1' =>
      let l2 := r1'.takeWhile fun c => c ≠ '\n'
      let r2 := r1'.dropWhile fun c => c ≠ '\n'
      if l2.head? = some '|' && l2.getLast? = some '|' && 3 ≤ l2.length
          && l2.all (fun c => c = '-' || c = ':' || c = '|' || c = ' ') then
        match hLoop (r2.length + 1) r2 with
        | ([], _) => none
        | (consumed, rest) => some (l1 ++ '\n' :: l2 ++ consumed, rest)
      else none
    | _ => none
  else none

/-- The `re.sub` scan: at every position try the region pattern; a match
is replaced by `markdown_table_to_html` of the matched region and the
scan resumes after it. -/
def tableSubAux : Nat → List Char → List Char
  | 0, cs => cs
  | _, [] => []
  | fuel + 1, c :: cs =>
    match tableMatchAt (c :: cs) with
    | some (m, rest) => (markdown_table_to_html ⟨m⟩).data ++ tableSubAux fuel rest
    | none => c :: tableSubAux fuel cs

/-- Whole-text markdown-table substitution of `query_agent` (lines
209–215). -/
def tableSub (s : String) : String :=
  ⟨tableSubAux (s.data.length + 1) s.data⟩

/-! ## RootAgent response extraction -/

/-- One item of a `content.parts` list: `text`/`name` entries may be
absent (`"text" in part`, `part.get("name")`).  Named `RespPart` because
`Part` is taken by Mathlib. -/
structure RespPart where
  text : Option String
  name : Option String

/-- One turn record of the `/run` response: `item.get("author")` and
`item.get("content", {}).get("parts", [])`. -/
structure TurnRecord where
  author : Option String
  parts : List RespPart

/-- The inner filter of the extraction loop: keep a part's text only if
the part has a text (`"text" in part`) and its `name` is not
`"SemanticAgent"` (`part.get("name") != "SemanticAgent"`). -/
def keepPart (p : RespPart) : Option String :=
  match p.text with
  | some t => if p.name ≠ some "SemanticAgent" then some t else none
  | none => none

/-- The texts added to `root_responses_set`, in the order the loop visits
them (duplicates included): parts of records authored by `"RootAgent"`
that pass `keepPart`. -/
def keptTexts (data : List TurnRecord) : List String :=
  data.bind fun r =>
    if r.author = some "RootAgent" then r.parts.filterMap keepPart
    else []

/-- First-seen-order deduplication (the ordering the spec requires),
with an explicit seen accumulator. -/
def fsdAux : List String → List String → List String
  | _, [] => []
  | seen, x :: xs => if x ∈ seen then fsdAux seen xs else x :: fsdAux (x :: seen) xs

/-- First-seen-order deduplication of a list. -/
def firstSeenDedup (l : List String) : List String :=
  fsdAux [] l

/-- What `list(root_responses_set)` guarantees about the Python `set`:
the enumeration is duplicate-free and has exactly the elements that were
added — and nothing more; its order is arbitrary (hash-dependent).  The
code's behaviour is therefore modelled parametrically in any enumeration
satisfying this contract. -/
def SetEnumOK (f : List String → List String) : Prop :=
  ∀ l : List String, (f l).Nodup ∧ ∀ x, x ∈ f l ↔ x ∈ l

/-- Python `"\n\n".join(final_responses)`. -/
def joinBlank (l : List String) : String :=
  String.intercalate "\n\n" l

/-- The `final_text` value: the joined deduplicated responses, or the placeholder
sentinel when no text was kept. -/
def finalTextOf (enum : List String → List String) (data : List TurnRecord) : String :=
  let fr := enum (keptTexts data)
  if fr.isEmpty then "<i>No response from RootAgent</i>" else joinBlank fr

/-! ## Session management

`get_or_create_session` interacts with the session file and the remote
service; these effects are modelled by an explicit environment: the file
content (`none` = no file, raising `FileNotFoundError` on read), the ping
probe (`none` = the request raised, `some c` = HTTP status `c`), and the
session-create call (`Except.error` = the request or `raise_for_status`
raised, `Except.ok id` = the returned JSON `id`). -/

structure SessionEnv where
  stored : Option String
  probe : String → Option Nat
  create : Except Unit String

/-- Result of one `get_or_create_session` run: the returned token (or a
propagated exception), the session file content afterwards, and how many
session-create requests were issued. -/
structure SessionOutcome where
  result : Except Unit String
  stored' : Option String
  createCalls : Nat

/-- Model of `load_session`: read the file and strip it; a missing file yields
`None`. -/
def load_session (stored : Option String) : Option String :=
  stored.map pyStrip

/-- Model of `save_session`: overwrite the file with the id. -/
def save_session (id : String) : Option String :=
  some id

/-- Model of `get_or_create_session`: reuse the loaded token only when it is
truthy and the ping probe returns status exactly `200` (a probe exception
is swallowed); otherwise create a new session, persist its id, and return
it (a failing create propagates and persists nothing). -/
def get_or_create_session (env : SessionEnv) : SessionOutcome :=
  let reuse : Option String :=
    match load_session env.stored with
    | some s =>
      if s ≠ "" then
        match env.probe s with
        | some 200 => some s
        | _ => none
      else none
    | none => none
  match reuse with
  | some s => ⟨.ok s, env.stored, 0⟩
  | none =>
    match env.create with
    | .error e => ⟨.error e, env.stored, 1⟩
    | .ok id => ⟨.ok id, save_session id, 1⟩

/-! ## The per-turn pipeline of `query_agent`

The turn is modelled from the `/run` request onward (lines 160–257): the
transport outcome of `requests.post` + `raise_for_status` + `.json()` is
an explicit `Except` argument, the conversation is passed and returned
explicitly, and the result is the `(chat_html, figure)` pair returned to
the UI (`none` = the hidden-graph update).  The code issues exactly one
`/run` request per turn — the model consumes exactly one transport
outcome and has no retry path. -/

structure ChatMsg where
  role : String
  text : String
  time : String

/-- The error markup returned on a transport failure (line 165). -/
def errorDiv (e : String) : String :=
  "<div style=\x27color:red;\x27>Error: " ++ e ++ "</div>"

/-- The user chat bubble f-string (lines 231–238). -/
def userBubble (content time : String) : String :=
  "\n                <div style=\"align-self:flex-end; background:#DCF8C6; color:#000;\n                padding:8px 12px; border-radius:15px 15px 0 15px; margin:4px 0;\n                max-width:70%;\">\n                "
    ++ content
    ++ "\n                <div style=\"font-size:10px; text-align:right;\">"
    ++ time ++ "</div>\n                </div>\n            "

/-- The agent chat bubble f-string (lines 240–247). -/
def agentBubble (content time : String) : String :=
  "\n                <div style=\"align-self:flex-start; background:#FFFFFF; color:#000;\n                padding:8px 12px; border-radius:15px 15px 15px 0; margin:4px 0;\n                max-width:70%; border:1px solid #ccc;\">\n                "
    ++ content
    ++ "\n                <div style=\"font-size:10px; text-align:right;\">"
    ++ time ++ "</div>\n                </div>\n            "

/-- The chat re-render loop (lines 227–249). -/
def chatHtml (conv : List ChatMsg) : String :=
  "<div style=\"display:flex; flex-direction:column;\">"
    ++ String.join (conv.map fun m =>
        if m.role = "user" then userBubble m.text m.time else agentBubble m.text m.time)
    ++ "</div>"
    ++ "<script>var chat=document.getElementById(\x27chatbox\x27);if(chat)chat.scrollTop=chat.scrollHeight;</script>"

/-- One turn of `query_agent` from the `/run` call onward.  On a transport
failure the error markup and the hidden-graph update are returned and the
conversation is untouched; otherwise the response is extracted, the graph
detected, tables converted, and the user and agent entries appended with
one shared timestamp. -/
def queryAgentTurn (enum : List String → List String)
    (runResult : Except String (List TurnRecord))
    (prompt timestamp : String) (conv : List ChatMsg) :
    (String × Option PyVal) × List ChatMsg :=
  match runResult with
  | .error e => ((errorDiv e, none), conv)
  | .ok data =>
    let ft := finalTextOf enum data
    let fig := graphResult ft
    let ft2 := if ft ≠ "" then tableSub ft else ft
    let conv' := conv ++ [⟨"user", prompt, timestamp⟩, ⟨"agent", ft2, timestamp⟩]
    ((chatHtml conv', fig), conv')

/-! ## Lemmas: first-seen deduplication and the set-enumeration contract -/

lemma fsdAux_mem (x : String) : ∀ (l seen : List String),
    x ∈ fsdAux seen l ↔ (x ∈ l ∧ x ∉ seen) := by
  intro l
  induction l with
  | nil => intro seen; simp [fsdAux]
  | cons y ys ih =>
    intro seen
    by_cases hy : y ∈ seen
    · rw [fsdAux, if_pos hy, ih]
      constructor
      · rintro ⟨h1, h2⟩; exact ⟨List.mem_cons_of_mem _ h1, h2⟩
      · rintro ⟨h1, h2⟩
        rcases List.mem_cons.mp h1 with h | h
        · exact absurd (h ▸ hy) h2
        · exact ⟨h, h2⟩
    · rw [fsdAux, if_neg hy]
      constructor
      · intro h
        rcases List.mem_cons.mp h with h | h
        · subst h; exact ⟨List.mem_cons_self _ _, hy⟩
        · rw [ih] at h
          obtain ⟨h1, h2⟩ := h
          refine ⟨List.mem_cons_of_mem _ h1, fun hc => h2 (List.mem_cons_of_mem _ hc)⟩
      · rintro ⟨h1, h2⟩
        rcases List.mem_cons.mp h1 with h | h
        · subst h; exact List.mem_cons_self _ _
        · by_cases hxy : x = y
          · subst hxy; exact List.mem_cons_self _ _
          · refine List.mem_cons_of_mem _ ?_
            rw [ih]
            exact ⟨h, fun hc => (List.mem_cons.mp hc).elim hxy h2⟩

lemma fsdAux_nodup : ∀ (l seen : List String), (fsdAux seen l).Nodup := by
  intro l
  induction l with
  | nil => intro seen; simp [fsdAux]
  | cons y ys ih =>
    intro seen
    by_cases hy : y ∈ seen
    · rw [fsdAux, if_pos hy]; exact ih seen
    · rw [fsdAux, if_neg hy]
      refine List.nodup_cons.mpr ⟨?_, ih (y :: seen)⟩
      intro hc
      exact ((fsdAux_mem y ys (y :: seen)).mp hc).2 (List.mem_cons_self _ _)

lemma setEnumOK_firstSeenDedup : SetEnumOK firstSeenDedup := by
  intro l
  refine ⟨fsdAux_nodup l [], fun x => ?_⟩
  rw [firstSeenDedup, fsdAux_mem]
  simp

/-- A second admissible enumeration of the Python set: the distinct
elements in reverse first-seen order.  A `set` gives no ordering promise,
so this enumeration is as legitimate a model of `list(root_responses_set)`
as any other. -/
def revEnum (l : List String) : List String :=
  (firstSeenDedup l).reverse

lemma setEnumOK_revEnum : SetEnumOK revEnum := by
  intro l
  refine ⟨List.nodup_reverse.mpr (fsdAux_nodup l []), fun x => ?_⟩
  rw [revEnum, List.mem_reverse]
  exact (setEnumOK_firstSeenDedup l).2 x

/-! ## Claim C1 -/

/-- Records whose kept texts are `["b", "a"]` in first-seen order. -/
def c1data : List TurnRecord :=
  [⟨some "RootAgent", [⟨some "b", none⟩, ⟨some "a", none⟩]⟩]

/-- Claim C1 (settled as a code bug): the extraction loop of
`query_agent` deduplicates through an unordered Python `set` and joins
`list(root_responses_set)`, so it does NOT guarantee first-seen order.
Formally: there is an enumeration satisfying everything the `set`
guarantees (duplicate-freeness and exact membership, `SetEnumOK`) under
which the joined result differs from the first-seen-order join on a
concrete record list. -/
theorem c1_set_enumeration_breaks_first_seen_order :
    SetEnumOK revEnum ∧
    finalTextOf revEnum c1data ≠ joinBlank (firstSeenDedup (keptTexts c1data)) := by
  refine ⟨setEnumOK_revEnum, ?_⟩
  decide

/-! ## Claim C3 -/

/-- Claim C3: on a transport failure of the run-turn call (connection
error or non-success status, both surfacing as the `Except.error` branch
of the one `/run` outcome the turn consumes — there is no retry path),
`query_agent` returns the single error markup with the hidden-graph
update and leaves the conversation history exactly as it was: no user
entry and no agent entry is appended. -/
theorem c3_transport_failure_leaves_history_unchanged
    (enum : List String → List String) (e prompt timestamp : String)
    (conv : List ChatMsg) :
    queryAgentTurn enum (.error e) prompt timestamp conv
      = ((errorDiv e, none), conv) := rfl

/-! ## Claim C6 -/

/-- Claim C6: every text in the extracted response set is witnessed by a
part whose `name` is NOT `"SemanticAgent"` (under any admissible set
enumeration); a part named `"SemanticAgent"` never contributes its text,
even inside a `"RootAgent"`-authored record. -/
theorem c6_excluded_part_never_included
    (enum : List String → List String) (hE : SetEnumOK enum)
    (data : List TurnRecord) (s : String)
    (hs : s ∈ enum (keptTexts data)) :
    ∃ r ∈ data, r.author = some "RootAgent" ∧
      ∃ p ∈ r.parts, p.text = some s ∧ p.name ≠ some "SemanticAgent" := by
  have hmem : s ∈ keptTexts data := ((hE (keptTexts data)).2 s).mp hs
  rw [keptTexts] at hmem
  rcases List.mem_bind.mp hmem with ⟨r, hr, hsr⟩
  refine ⟨r, hr, ?_⟩
  by_cases ha : r.author = some "RootAgent"
  · rw [if_pos ha] at hsr
    rcases List.mem_filterMap.mp hsr with ⟨p, hp, hps⟩
    refine ⟨ha, p, hp, ?_⟩
    rcases htext : p.text with _ | t
    · simp [keepPart, htext] at hps
    · simp only [keepPart, htext] at hps
      by_cases hn : p.name ≠ some "SemanticAgent"
      · rw [if_pos hn] at hps
        exact ⟨hps, hn⟩
      · rw [if_neg hn] at hps; cases hps
  · rw [if_neg ha] at hsr; cases hsr

/-- Records with one kept text and one excluded `"SemanticAgent"` part. -/
def c6data : List TurnRecord :=
  [⟨some "RootAgent", [⟨some "hi", none⟩, ⟨some "sem", some "SemanticAgent"⟩]⟩]

/-- Witness for C6 at a concrete record list and the first-seen-order
enumeration. -/
theorem c6_witness :
    SetEnumOK firstSeenDedup ∧
    ("hi" ∈ firstSeenDedup (keptTexts c6data)) ∧
    (∃ r ∈ c6data, r.author = some "RootAgent" ∧
      ∃ p ∈ r.parts, p.text = some "hi" ∧ p.name ≠ some "SemanticAgent") :=
  ⟨setEnumOK_firstSeenDedup, by decide,
    c6_excluded_part_never_included firstSeenDedup setEnumOK_firstSeenDedup
      c6data "hi" (by decide)⟩

/-! ## Claim C2 -/

/-- A persisted token whose validity probe answers `204 No Content` —
a 2xx success status that is not `200`. -/
def c2env : SessionEnv :=
  ⟨some "tok", fun _ => some 204, .ok "newid"⟩

/-- Counterexample to claim C2 as stated: with a persisted token `"tok"`
and a probe returning the 2xx status `204`, `get_or_create_session` does
NOT reuse the token with no create call — it issues a create call and
returns the new id (the code tests `status_code == 200`, not any 2xx). -/
theorem c2_counterexample :
    (get_or_create_session c2env).result = .ok "newid" ∧
    ¬((get_or_create_session c2env).result = .ok "tok" ∧
      (get_or_create_session c2env).createCalls = 0) := by
  refine ⟨rfl, ?_⟩
  rintro ⟨-, h0⟩
  exact absurd h0 (by decide)

/-- Claim C2 as amended: the token is reused (returned unchanged, with no
create call and the stored file untouched) exactly when the probe returns
status `200`; any other status — including other 2xx codes — or a probe
exception leads to creating a new session. -/
theorem c2_amended_probe_200_reuses_token (env : SessionEnv) (s : String)
    (h1 : env.stored = some s) (h2 : pyStrip s ≠ "")
    (h3 : env.probe (pyStrip s) = some 200) :
    (get_or_create_session env).result = .ok (pyStrip s) ∧
    (get_or_create_session env).createCalls = 0 ∧
    (get_or_create_session env).stored' = env.stored := by
  have hout : get_or_create_session env = ⟨.ok (pyStrip s), env.stored, 0⟩ := by
    simp only [get_or_create_session, load_session, h1, Option.map_some']
    rw [if_pos h2, h3]
  rw [hout]
  exact ⟨rfl, rfl, rfl⟩

/-- Environment for the C2 witness: a stored token with whitespace edges
and a probe that accepts the stripped token with `200`. -/
def c2wenv : SessionEnv :=
  ⟨some " tok ", fun t => if t = "tok" then some 200 else none, .ok "x"⟩

/-- Witness for the amended C2 at a concrete environment. -/
theorem c2_amended_witness :
    (pyStrip " tok " ≠ "") ∧ (c2wenv.probe (pyStrip " tok ") = some 200) ∧
    ((get_or_create_session c2wenv).result = .ok (pyStrip " tok ") ∧
     (get_or_create_session c2wenv).createCalls = 0 ∧
     (get_or_create_session c2wenv).stored' = c2wenv.stored) :=
  ⟨by decide, by decide,
    c2_amended_probe_200_reuses_token c2wenv " tok " rfl (by decide) (by decide)⟩

/-! ## Claim C8 -/

/-- No persisted token; the create call returns an id with a trailing
space (`load_session` strips what it reads back). -/
def c8env : SessionEnv :=
  ⟨none, fun _ => none, .ok "abc "⟩

/-- Counterexample to claim C8 as stated: with no persisted token the
code does create once, persist the returned id and return it — but a
subsequent load does NOT return that same id when the id carries
surrounding whitespace, because `load_session` strips the file content. -/
theorem c8_counterexample :
    (get_or_create_session c8env).createCalls = 1 ∧
    (get_or_create_session c8env).stored' = save_session "abc " ∧
    load_session (get_or_create_session c8env).stored' ≠ some "abc " := by
  refine ⟨rfl, rfl, ?_⟩
  decide

/-- Claim C8 as amended: with no persisted token, exactly one create call
is performed, the returned id is persisted verbatim and returned; a
subsequent load returns the id stripped of surrounding whitespace (which
is the id itself whenever it has none). -/
theorem c8_amended_create_once_persist_strip_roundtrip
    (env : SessionEnv) (id : String)
    (h1 : env.stored = none) (h2 : env.create = .ok id) :
    (get_or_create_session env).createCalls = 1 ∧
    (get_or_create_session env).result = .ok id ∧
    (get_or_create_session env).stored' = save_session id ∧
    load_session (get_or_create_session env).stored' = some (pyStrip id) := by
  have hout : get_or_create_session env = ⟨.ok id, save_session id, 1⟩ := by
    simp only [get_or_create_session, load_session, h1, Option.map_none', h2]
  rw [hout]
  exact ⟨rfl, rfl, rfl, rfl⟩

/-- Environment for the C8 witness. -/
def c8wenv : SessionEnv :=
  ⟨none, fun _ => none, .ok "xyz"⟩

/-- Witness for the amended C8 at a concrete environment. -/
theorem c8_amended_witness :
    (c8wenv.stored = none) ∧ (c8wenv.create = .ok "xyz") ∧
    ((get_or_create_session c8wenv).createCalls = 1 ∧
     (get_or_create_session c8wenv).result = .ok "xyz" ∧
     (get_or_create_session c8wenv).stored' = save_session "xyz" ∧
     load_session (get_or_create_session c8wenv).stored' = some (pyStrip "xyz")) :=
  ⟨rfl, rfl,
    c8_amended_create_once_persist_strip_roundtrip c8wenv "xyz" rfl rfl⟩

/-! ## Claim C9 -/

/-- Claim C9: on any text that contains pipe characters but whose lines
(after the strip-and-splitlines step) contain no line matching the
dash/colon separator pattern, `markdown_table_to_html` returns the input
unchanged — in particular the second line fails the separator check, so
the conversion never treats the block as tabular. -/
theorem c9_no_separator_line_returns_input (md : String)
    (hpipe : md.data.contains '|' = true)
    (hsep : ∀ l ∈ pySplitlinesL (stripWsL md.data), sepMatchL l = false) :
    markdown_table_to_html md = md := by
  rw [markdown_table_to_html]
  rcases hls : pySplitlinesL (stripWsL md.data) with _ | ⟨l0, _ | ⟨l1, rest⟩⟩
  · rfl
  · rfl
  · have h1 : sepMatchL l1 = false :=
      hsep l1 (by rw [hls]; exact List.mem_cons_of_mem _ (List.mem_cons_self _ _))
    simp [h1]

/-- Witness for C9: prose with pipes and no separator line. -/
theorem c9_witness :
    ("a | b".data.contains '|' = true) ∧
    (∀ l ∈ pySplitlinesL (stripWsL "a | b".data), sepMatchL l = false) ∧
    markdown_table_to_html "a | b" = "a | b" :=
  ⟨by decide, by decide,
    c9_no_separator_line_returns_input "a | b" (by decide) (by decide)⟩

/-! ## Claim C10 -/

lemma pyFloatDD_nonneg {cs : List Char} {q : ℚ} (h : pyFloatDD cs = some q) :
    0 ≤ q := by
  rw [pyFloatDD] at h
  split at h
  · split at h
    · split at h
      · cases h
      · rw [← Option.some.inj h]; positivity
    · split at h
      · cases h
      · rw [← Option.some.inj h]; positivity
    · cases h
  · cases h

lemma floatsOf_nonneg : ∀ (ms : List (List Char × List Char))
    (ps : List (ℚ × ℚ)), floatsOf ms = .ok ps → ∀ p ∈ ps, 0 ≤ p.1 ∧ 0 ≤ p.2 := by
  intro ms
  induction ms with
  | nil =>
    intro ps h p hp
    rw [floatsOf] at h
    rw [← Except.ok.inj h] at hp
    cases hp
  | cons m rest ih =>
    intro ps h p hp
    obtain ⟨xs, ys⟩ := m
    rw [floatsOf] at h
    rcases hx : pyFloatDD xs with _ | x <;> rw [hx] at h
    · cases h
    · rcases hy : pyFloatDD ys with _ | y <;> rw [hy] at h
      · cases h
      · rcases hr : floatsOf rest with e | qs <;> rw [hr] at h
        · cases h
        · rw [← Except.ok.inj h] at hp
          rcases List.mem_cons.mp hp with hpe | hpm
          · rw [hpe]
            exact ⟨pyFloatDD_nonneg hx, pyFloatDD_nonneg hy⟩
          · exact ih qs hr p hpm

/-- A loose inline object with a negative x coordinate. -/
def negPointStr : String := "\x7b\"x\": -1, \"y\": 2\x7d"

/-- Claim C10: the tolerant fallback pattern captures only unsigned
numerals (`[\d.]+`), so every point the fallback collects has
non-negative coordinates; and an inline object with a negative
coordinate, such as `negPointStr`, is never matched at all. -/
theorem c10_loose_scan_points_nonnegative (t : String) (ps : List (ℚ × ℚ))
    (h : loosePointsE t = .ok ps) :
    (∀ p ∈ ps, 0 ≤ p.1 ∧ 0 ≤ p.2) ∧ looseFindallL negPointStr.data = [] := by
  refine ⟨?_, by decide⟩
  rw [loosePointsE] at h
  exact floatsOf_nonneg _ ps h

/-- A text with one loose inline point `(1, 2)`. -/
def c10text : String := "\x7b\"x\": 1, \"y\": 2\x7d"

/-- Witness for C10 at a concrete text. -/
theorem c10_witness :
    loosePointsE c10text = .ok [((1 : ℚ), 2)] ∧
    ((∀ p ∈ [((1 : ℚ), (2 : ℚ))], 0 ≤ p.1 ∧ 0 ≤ p.2) ∧
      looseFindallL negPointStr.data = []) :=
  ⟨by rfl, c10_loose_scan_points_nonnegative c10text [((1 : ℚ), 2)] (by rfl)⟩

/-! ## Lemmas: strip/splitlines round-trip for newline-joined lines -/

lemma dropWhile_eq_self_of_head {p : Char → Bool} {l : List Char}
    (h : ∀ c, l.head? = some c → p c = false) : l.dropWhile p = l := by
  cases l with
  | nil => rfl
  | cons c cs => rw [List.dropWhile_cons, h c rfl]; simp

lemma stripWsL_eq_self {cs : List Char}
    (h1 : ∀ c, cs.head? = some c → isPyWs c = false)
    (h2 : ∀ c, cs.getLast? = some c → isPyWs c = false) :
    stripWsL cs = cs := by
  rw [stripWsL, stripCharsL, dropWhile_eq_self_of_head h1,
    dropWhile_eq_self_of_head (fun c hc => h2 c (by rwa [List.head?_reverse] at hc)),
    List.reverse_reverse]

lemma splitBreaks_no_break : ∀ {l : List Char}, (∀ c ∈ l, isLineBreak c = false) →
    splitBreaks l = [l] := by
  intro l
  induction l with
  | nil => intro _; rfl
  | cons c cs ih =>
    intro h
    rw [splitBreaks, if_neg (by simp [h c (List.mem_cons_self _ _)]),
      ih (fun x hx => h x (List.mem_cons_of_mem _ hx))]
    rfl

lemma splitBreaks_append_nl : ∀ {l r : List Char}, (∀ c ∈ l, isLineBreak c = false) →
    splitBreaks (l ++ '\n' :: r) = l :: splitBreaks r := by
  intro l
  induction l with
  | nil =>
    intro r _
    rw [List.nil_append, splitBreaks, if_pos (by decide)]
  | cons c cs ih =>
    intro r h
    rw [List.cons_append, splitBreaks, if_neg (by simp [h c (List.mem_cons_self _ _)]),
      ih (fun x hx => h x (List.mem_cons_of_mem _ hx))]
    rfl

lemma crlfNormalize_no_cr : ∀ {l : List Char}, '\r' ∉ l → crlfNormalize l = l := by
  intro l
  induction l with
  | nil => intro _; rfl
  | cons c cs ih =>
    intro h
    have hc : c ≠ '\r' := fun hc2 => h (hc2 ▸ List.mem_cons_self _ _)
    cases cs with
    | nil => rfl
    | cons c2 cs2 =>
      rw [crlfNormalize, if_neg (by simp [hc]),
        ih (fun hm => h (List.mem_cons_of_mem _ hm))]

lemma joinNlL_cons_cons (l l2 : List Char) (ls : List (List Char)) :
    joinNlL (l :: l2 :: ls) = l ++ '\n' :: joinNlL (l2 :: ls) := rfl

lemma mem_joinNlL : ∀ {ls : List (List Char)} {c : Char}, c ∈ joinNlL ls →
    c = '\n' ∨ ∃ l ∈ ls, c ∈ l := by
  intro ls
  induction ls with
  | nil => intro c h; cases h
  | cons l ls ih =>
    intro c h
    cases ls with
    | nil => exact Or.inr ⟨l, List.mem_cons_self _ _, h⟩
    | cons l2 ls2 =>
      rw [joinNlL_cons_cons] at h
      rcases List.mem_append.mp h with h1 | h2
      · exact Or.inr ⟨l, List.mem_cons_self _ _, h1⟩
      · rcases List.mem_cons.mp h2 with rfl | h3
        · exact Or.inl rfl
        · rcases ih h3 with h4 | ⟨l', hl', hc⟩
          · exact Or.inl h4
          · exact Or.inr ⟨l', List.mem_cons_of_mem _ hl', hc⟩

lemma joinNlL_no_cr {ls : List (List Char)}
    (hnl : ∀ l ∈ ls, ∀ c ∈ l, isLineBreak c = false) : '\r' ∉ joinNlL ls := by
  intro hmem
  rcases mem_joinNlL hmem with h | ⟨l, hl, hc⟩
  · exact absurd h (by decide)
  · exact absurd (hnl l hl '\r' hc) (by decide)

lemma splitBreaks_joinNl : ∀ (ls : List (List Char)), ls ≠ [] →
    (∀ l ∈ ls, ∀ c ∈ l, isLineBreak c = false) →
    splitBreaks (joinNlL ls) = ls := by
  intro ls
  induction ls with
  | nil => intro h; exact absurd rfl h
  | cons l ls ih =>
    intro _ hnl
    cases ls with
    | nil => exact splitBreaks_no_break (hnl l (List.mem_cons_self _ _))
    | cons l2 ls2 =>
      rw [joinNlL_cons_cons, splitBreaks_append_nl (hnl l (List.mem_cons_self _ _)),
        ih (by simp) (fun x hx => hnl x (List.mem_cons_of_mem _ hx))]

lemma joinNlL_ne_nil : ∀ (ls : List (List Char)) (hne : ls ≠ []),
    ls.getLast hne ≠ [] → joinNlL ls ≠ [] := by
  intro ls
  cases ls with
  | nil => intro hne; exact absurd rfl hne
  | cons l ls2 =>
    intro hne hlast
    cases ls2 with
    | nil => exact hlast
    | cons l2 ls3 =>
      rw [joinNlL_cons_cons]
      simp

lemma joinNlL_getLast? : ∀ (ls : List (List Char)) (hne : ls ≠ []),
    ls.getLast hne ≠ [] → (joinNlL ls).getLast? = (ls.getLast hne).getLast? := by
  intro ls
  induction ls with
  | nil => intro hne; exact absurd rfl hne
  | cons l ls ih =>
    intro hne hlast
    cases ls with
    | nil => rfl
    | cons l2 ls2 =>
      have hne2 : (l2 :: ls2) ≠ [] := by simp
      have hcast : (l :: l2 :: ls2).getLast hne = (l2 :: ls2).getLast hne2 :=
        List.getLast_cons hne2
      rw [hcast] at hlast ⊢
      rw [joinNlL_cons_cons, List.getLast?_append_of_ne_nil _ (by simp)]
      have hJne := joinNlL_ne_nil (l2 :: ls2) hne2 hlast
      have hcons : ('\n' :: joinNlL (l2 :: ls2)).getLast? = (joinNlL (l2 :: ls2)).getLast? := by
        rw [show ('\n' :: joinNlL (l2 :: ls2)) = ['\n'] ++ joinNlL (l2 :: ls2) from rfl]
        exact List.getLast?_append_of_ne_nil _ hJne
      rw [hcons]
      exact ih hne2 hlast

lemma joinNlL_head?_of_ne (l : List Char) (ls : List (List Char)) (hl : l ≠ []) :
    (joinNlL (l :: ls)).head? = l.head? := by
  cases ls with
  | nil => rfl
  | cons l2 ls2 =>
    rw [joinNlL_cons_cons]
    cases l with
    | nil => exact absurd rfl hl
    | cons a t => rfl

lemma pySplitlines_joinNl (ls : List (List Char)) (hne : ls ≠ [])
    (hnl : ∀ l ∈ ls, ∀ c ∈ l, isLineBreak c = false) (hlast : ls.getLast hne ≠ []) :
    pySplitlinesL (joinNlL ls) = ls := by
  have hj : splitBreaks (crlfNormalize (joinNlL ls)) = ls := by
    rw [crlfNormalize_no_cr (joinNlL_no_cr hnl)]
    exact splitBreaks_joinNl ls hne hnl
  have hjoin_ne : joinNlL ls ≠ [] := joinNlL_ne_nil ls hne hlast
  have hie : (joinNlL ls).isEmpty = false := by
    rcases h : joinNlL ls with _ | ⟨c, cs⟩
    · exact absurd h hjoin_ne
    · rfl
  have hlast? : ls.getLast? ≠ some [] := by
    rw [List.getLast?_eq_getLast ls hne]
    intro hc
    exact hlast (Option.some.inj hc)
  rw [pySplitlinesL, hie]
  simp only [Bool.false_eq_true, if_false, hj]
  rw [if_neg hlast?]

/-! ## Claim C4 -/

/-- The first character of a string exists and is not whitespace (so the
leading `strip()` of the joined text removes nothing). -/
def firstCharNotWs (s : String) : Bool :=
  match s.data with
  | c :: _ => !isPyWs c
  | [] => false

/-- The last character of a string exists and is not whitespace. -/
def lastCharNotWs (s : String) : Bool :=
  match s.data.getLast? with
  | some c => !isPyWs c
  | none => false

lemma firstCharNotWs_spec {s : String} (h : firstCharNotWs s = true) :
    s.data ≠ [] ∧ ∀ c, s.data.head? = some c → isPyWs c = false := by
  rcases hd : s.data with _ | ⟨c, t⟩
  · rw [firstCharNotWs, hd] at h; cases h
  · simp only [firstCharNotWs, hd] at h
    refine ⟨by simp, ?_⟩
    intro c' hc'
    have hcc : c = c' := Option.some.inj hc'
    rw [← hcc]
    simpa using h

lemma lastCharNotWs_spec {s : String} (h : lastCharNotWs s = true) :
    s.data ≠ [] ∧ ∀ c, s.data.getLast? = some c → isPyWs c = false := by
  rcases hd : s.data.getLast? with _ | c
  · simp only [lastCharNotWs, hd] at h
    cases h
  · simp only [lastCharNotWs, hd] at h
    constructor
    · intro h0
      rw [h0] at hd
      cases hd
    · intro c' hc'
      have hcc : c = c' := Option.some.inj hc'
      rw [← hcc]
      simpa using h

/-- Claim C4: for a text joined from a header line, a line matching the
separator pattern, and N body lines (none containing a line-boundary
character, and the text not starting or ending in whitespace so the
outer `strip()` is inert),
`markdown_table_to_html` emits exactly the table whose single header row
holds the header's cells and whose N body rows hold each body line's
cells in their original left-to-right, top-to-bottom order — the
separator line is discarded (`tableHtmlOf` renders 1 `<th>` row and one
`<td>` row per body line, in order). -/
theorem c4_table_one_header_n_body_rows (hd0 sep : String) (body : List String)
    (hnl : ∀ l ∈ hd0 :: sep :: body, ∀ c ∈ l.data, isLineBreak c = false)
    (hfirst : firstCharNotWs hd0 = true)
    (hlast : lastCharNotWs ((hd0 :: sep :: body).getLast (List.cons_ne_nil _ _)) = true)
    (hsep : sepMatchL sep.data = true) :
    markdown_table_to_html (joinNl (hd0 :: sep :: body)) =
      tableHtmlOf (cellsOfLineL hd0.data) (body.map fun l => cellsOfLineL l.data) := by
  obtain ⟨hfirst_ne, hfirst_ws⟩ := firstCharNotWs_spec hfirst
  obtain ⟨hlast_ne, hlast_ws⟩ := lastCharNotWs_spec hlast
  have hLne : (hd0.data :: sep.data :: body.map String.data) ≠ [] := by simp
  have hL_nl : ∀ l ∈ hd0.data :: sep.data :: body.map String.data,
      ∀ c ∈ l, isLineBreak c = false := by
    intro l hl
    rcases List.mem_cons.mp hl with rfl | hl2
    · exact hnl hd0 (List.mem_cons_self _ _)
    · rcases List.mem_cons.mp hl2 with rfl | hl3
      · exact hnl sep (List.mem_cons_of_mem _ (List.mem_cons_self _ _))
      · obtain ⟨s, hs, rfl⟩ := List.mem_map.mp hl3
        exact hnl s (List.mem_cons_of_mem _ (List.mem_cons_of_mem _ hs))
  have hL_last : (hd0.data :: sep.data :: body.map String.data).getLast hLne
      = ((hd0 :: sep :: body).getLast (List.cons_ne_nil _ _)).data := by
    have := List.getLast_map String.data (hd0 :: sep :: body)
      (by simp)
    simpa using this
  have hL_last_ne : (hd0.data :: sep.data :: body.map String.data).getLast hLne ≠ [] := by
    rw [hL_last]; exact hlast_ne
  have hstrip : stripWsL (joinNlL (hd0.data :: sep.data :: body.map String.data))
      = joinNlL (hd0.data :: sep.data :: body.map String.data) := by
    apply stripWsL_eq_self
    · intro c hc
      rw [joinNlL_head?_of_ne _ _ hfirst_ne] at hc
      exact hfirst_ws c hc
    · intro c hc
      rw [joinNlL_getLast? _ hLne hL_last_ne, hL_last] at hc
      exact hlast_ws c hc
  have hsplit : pySplitlinesL (joinNlL (hd0.data :: sep.data :: body.map String.data))
      = hd0.data :: sep.data :: body.map String.data :=
    pySplitlines_joinNl _ hLne hL_nl hL_last_ne
  have key : pySplitlinesL (stripWsL (joinNl (hd0 :: sep :: body)).data)
      = hd0.data :: sep.data :: body.map String.data := by
    have h1 : (joinNl (hd0 :: sep :: body)).data
        = joinNlL (hd0.data :: sep.data :: body.map String.data) := rfl
    rw [h1, hstrip]
    exact hsplit
  simp only [markdown_table_to_html, key, hsep, if_true]
  simp [List.map_map]
  rfl

/-! ## Claim C4 witness -/

/-- Witness for C4 at the spec's example table. -/
theorem c4_witness :
    (∀ l ∈ ["| a | b |", "|---|---|", "| 1 | 2 |"], ∀ c ∈ l.data, isLineBreak c = false) ∧
    firstCharNotWs "| a | b |" = true ∧
    lastCharNotWs "| 1 | 2 |" = true ∧
    sepMatchL "|---|---|".data = true ∧
    markdown_table_to_html (joinNl ["| a | b |", "|---|---|", "| 1 | 2 |"])
      = tableHtmlOf (cellsOfLineL "| a | b |".data)
          (["| 1 | 2 |"].map fun l => cellsOfLineL l.data) :=
  ⟨by decide, by decide, by decide, by decide,
    c4_table_one_header_n_body_rows "| a | b |" "|---|---|" ["| 1 | 2 |"]
      (by decide) (by decide) (by decide) (by decide)⟩

/-! ## Lemmas: the fence search on hygienically assembled text -/

lemma matchFenceAt_none_of_not_backtick {c : Char} (cs : List Char) (hc : c ≠ '`') :
    matchFenceAt (c :: cs) = none := by
  rw [matchFenceAt.eq_def]
  split
  · rename_i rest heq
    injection heq with h1 _
    exact absurd h1 hc
  · rfl

lemma fenceSearchL_append {a r : List Char} (ha : '`' ∉ a) :
    fenceSearchL (a ++ r) = fenceSearchL r := by
  induction a with
  | nil => rfl
  | cons c a' ih =>
    have hc : c ≠ '`' := fun h => ha (h ▸ List.mem_cons_self _ _)
    rw [List.cons_append, fenceSearchL, matchFenceAt_none_of_not_backtick _ hc]
    exact ih (fun hm => ha (List.mem_cons_of_mem _ hm))

lemma fenceFindClose_canonical : ∀ (mid : List Char) (acc tail : List Char), ']' ∉ mid →
    fenceAfterOk tail = true →
    fenceFindClose acc (mid ++ ']' :: tail) = some (acc.reverse ++ mid ++ [']']) := by
  intro mid
  induction mid with
  | nil =>
    intro acc tail _ ht
    rw [List.nil_append, fenceFindClose]
    simp [ht]
  | cons c mid' ih =>
    intro acc tail h ht
    have hc : c ≠ ']' := fun hc2 => h (hc2 ▸ List.mem_cons_self _ _)
    rw [List.cons_append, fenceFindClose, if_neg hc,
      ih (c :: acc) tail (fun hm => h (List.mem_cons_of_mem _ hm)) ht]
    simp

lemma matchFenceAt_canonical (mid tail : List Char) (hmid : ']' ∉ mid)
    (htail : fenceAfterOk tail = true) :
    matchFenceAt ('`' :: '`' :: '`' :: 'j' :: 's' :: 'o' :: 'n' :: '\n' :: '[' ::
        (mid ++ ']' :: tail))
      = some ('[' :: mid ++ [']']) := by
  show fenceFindClose ['['] (mid ++ ']' :: tail) = some ('[' :: mid ++ [']'])
  rw [fenceFindClose_canonical mid ['['] tail hmid htail]
  simp

lemma fenceSearchL_canonical (a mid tail : List Char)
    (ha : '`' ∉ a) (hmid : ']' ∉ mid) (htail : fenceAfterOk tail = true) :
    fenceSearchL (a ++ '`' :: '`' :: '`' :: 'j' :: 's' :: 'o' :: 'n' :: '\n' :: '[' ::
        (mid ++ ']' :: tail))
      = some ('[' :: mid ++ [']']) := by
  rw [fenceSearchL_append ha, fenceSearchL,
    matchFenceAt_canonical mid tail hmid htail]

/-! ## Claim C5 -/

/-- Claim C5: when the text contains a fenced `json` block holding a
bracketed array (no stray backtick before the fence, no `']'` inside the
array body, so the lazy capture is exactly the array) that parses to a
truthy value `v` — in particular a nonempty array of `\x7bx, y\x7d` points —
and the text also contains loose inline point objects, the graph step
returns exactly the fenced value `v`, in the array's own order; the
loose matches are never consulted. -/
theorem c5_fenced_array_beats_loose_points (a b : String) (mid : List Char) (v : PyVal)
    (ha : '`' ∉ a.data)
    (hmid : ']' ∉ mid)
    (hv : jsonLoads ⟨'[' :: mid ++ [']']⟩ = some v)
    (htruthy : pyTruthy v = true)
    (hpts : (pointsOfVal v).isSome = true)
    (hloose : looseFindallL
      (a ++ "```json\n" ++ (⟨'[' :: mid ++ [']']⟩ : String) ++ "\n```" ++ b).data ≠ []) :
    graphResult (a ++ "```json\n" ++ (⟨'[' :: mid ++ [']']⟩ : String) ++ "\n```" ++ b)
      = some v := by
  have happ : ∀ (x y : String), (x ++ y).data = x.data ++ y.data := fun ⟨xd⟩ ⟨yd⟩ => rfl
  have hdata : (a ++ "```json\n" ++ (⟨'[' :: mid ++ [']']⟩ : String) ++ "\n```" ++ b).data
      = a.data ++ '`' :: '`' :: '`' :: 'j' :: 's' :: 'o' :: 'n' :: '\n' :: '[' ::
          (mid ++ ']' :: ('\n' :: '`' :: '`' :: '`' :: b.data)) := by
    rw [happ, happ, happ, happ,
      show ("```json\n").data = ['`', '`', '`', 'j', 's', 'o', 'n', '\n'] from rfl,
      show ("\n```").data = ['\n', '`', '`', '`'] from rfl,
      show (⟨'[' :: mid ++ [']']⟩ : String).data = '[' :: mid ++ [']'] from rfl]
    simp [List.append_assoc]
  have htail : fenceAfterOk ('\n' :: '`' :: '`' :: '`' :: b.data) = true := rfl
  have hfence : fenceSearchL
      (a ++ "```json\n" ++ (⟨'[' :: mid ++ [']']⟩ : String) ++ "\n```" ++ b).data
      = some ('[' :: mid ++ [']']) := by
    rw [hdata]
    exact fenceSearchL_canonical a.data mid _ ha hmid htail
  have hpl : ((fenceSearchL
      (a ++ "```json\n" ++ (⟨'[' :: mid ++ [']']⟩ : String) ++ "\n```" ++ b).data).bind
        fun g => jsonLoads ⟨g⟩) = some v := by
    rw [hfence]
    exact hv
  simp only [graphResult, hpl, htruthy]
  simp

/-- The concrete pieces of the C5 witness text: a prefix with a loose
point object, the fenced array interior, and a suffix. -/
def c5pre : String := "Loose first: \x7b\"x\": 9, \"y\": 9\x7d then "

/-- Interior of the fenced array of the C5 witness. -/
def c5mid : List Char := "\x7b\"x\": 1, \"y\": 2\x7d".data

/-- The parsed fenced value of the C5 witness. -/
def c5val : PyVal :=
  .arr [.obj [("x", .num 1), ("y", .num 2)]]

/-- Witness for C5 at a concrete text holding both a fenced point array
and a loose inline point object. -/
theorem c5_witness :
    ('`' ∉ c5pre.data) ∧ (']' ∉ c5mid) ∧
    jsonLoads ⟨'[' :: c5mid ++ [']']⟩ = some c5val ∧
    pyTruthy c5val = true ∧
    (pointsOfVal c5val).isSome = true ∧
    looseFindallL
      (c5pre ++ "```json\n" ++ (⟨'[' :: c5mid ++ [']']⟩ : String) ++ "\n```" ++ " tail").data ≠ [] ∧
    graphResult
      (c5pre ++ "```json\n" ++ (⟨'[' :: c5mid ++ [']']⟩ : String) ++ "\n```" ++ " tail")
      = some c5val :=
  ⟨by decide, by decide, by rfl, by rfl, by rfl, by decide,
    c5_fenced_array_beats_loose_points c5pre " tail" c5mid c5val
      (by decide) (by decide) (by rfl) (by rfl) (by rfl) (by decide)⟩

/-! ## Claim C7 -/

/-- The C7 counterexample text: a fenced block whose array parses as
JSON but holds no point data. -/
def c7cex : String := "```json\n[\"a\"]\n```"

/-- Counterexample to claim C7 as stated: `c7cex` contains no parsable
fenced point array (`fencePointArray` is `none`) and no loose inline
point matches, yet the graph step does NOT return none — the truthy
non-point JSON array `["a"]` is handed to the plot step, so a (error)
chart is produced for the turn. -/
theorem c7_counterexample :
    fencePointArray c7cex = none ∧
    looseFindallL c7cex.data = [] ∧
    (graphResult c7cex).isSome = true := by
  refine ⟨by rfl, by rfl, by rfl⟩

/-- Claim C7 as amended: when the fenced capture (if any) does not parse
to a truthy JSON value and the text has no loose inline point matches,
graph extraction yields none — no chart — and (structurally) cannot
raise: the only raising operation, the float coercion, is reached only
through a nonempty loose match list, and the surrounding handler maps
any such exception to none as well. -/
theorem c7_amended_no_usable_data_no_chart (t : String)
    (hfence : ∀ v : PyVal,
      ((fenceSearchL t.data).bind fun g => jsonLoads ⟨g⟩) = some v → pyTruthy v = false)
    (hloose : looseFindallL t.data = []) :
    graphResult t = none := by
  rw [graphResult]
  rcases hp : (fenceSearchL t.data).bind fun g => jsonLoads ⟨g⟩ with _ | v
  · simp [hp, loosePointsE, hloose, floatsOf]
  · have hv := hfence v hp
    simp [hp, hv, loosePointsE, hloose, floatsOf]

/-- Witness for the amended C7 at a concrete text with no embedded data. -/
theorem c7_amended_witness :
    (∀ v : PyVal,
      ((fenceSearchL ("just words").data).bind fun g => jsonLoads ⟨g⟩) = some v →
        pyTruthy v = false) ∧
    looseFindallL ("just words").data = [] ∧
    graphResult "just words" = none :=
  ⟨fun v h => by
      rw [show ((fenceSearchL ("just words").data).bind fun g => jsonLoads ⟨g⟩)
          = none from rfl] at h
      exact Option.noConfusion h,
    by rfl,
    c7_amended_no_usable_data_no_chart "just words"
      (fun v h => by
        rw [show ((fenceSearchL ("just words").data).bind fun g => jsonLoads ⟨g⟩)
            = none from rfl] at h
        exact Option.noConfusion h)
      (by rfl)⟩
